import Mathlib

/-!
Verification development for the GoTUI plugin-panel application.

The definitions below are a shallow embedding of the application's state
machine (the `model` struct and its `Update` function, the display
projection `buildDisplayLines`, the batch dispatcher `processSelectedFiles`,
and the asynchronous `downloadFile` action).  Go maps are embedded as
association lists with lookup defaulting to `false`/`none`; Go `int` is
embedded as `Int` where negative values can occur (cursor, file index,
scroll offset) and as `Nat` where only non-negative values are ever
written; Go runtime panics (out-of-range slice indexing, nil dereference)
are embedded as `Except.error`.  Wall-clock timestamps prefixed to log
entries are omitted (they are nondeterministic and carry no control flow);
log messages themselves are kept.  External effects (filesystem probe,
HTTP fetch, alias-ledger writes) and the foreign guest component loaded by
`plugin.Open` are parameters (`Env`): the guest is observed through the
trace of events delivered to it and an opaque command it may return.
-/

namespace GoTUI

/-- One file entry of a remote catalog (`GitHubFile` in the source). -/
structure GitHubFile where
  name : String
  type : String
  downloadURL : String
deriving DecidableEq

/-- One remote repository (`Repository` in the source). -/
structure Repository where
  name : String
  url : String
  files : List GitHubFile
  collapsed : Bool
deriving DecidableEq

/-- One rendered line of the catalog projection (`displayLine` in the source).
`fileIdx` is `-1` on repository headers, mirroring the Go struct. -/
structure DisplayLine where
  isRepo : Bool
  repoIdx : Nat
  fileIdx : Int
  text : String
  isHeader : Bool
deriving DecidableEq

/-! ### Go map embedding (`map[string]bool`) -/

/-- Go map read `m[k]`: missing keys read as `false`. -/
def mapGet (l : List (String × Bool)) (k : String) : Bool :=
  match l with
  | [] => false
  | (a, v) :: rest => if a = k then v else mapGet rest k

/-- Go map write `m[k] = v`. -/
def mapSet (l : List (String × Bool)) (k : String) (v : Bool) : List (String × Bool) :=
  match l with
  | [] => [(k, v)]
  | (a, w) :: rest => if a = k then (a, v) :: rest else (a, w) :: mapSet rest k v

/-- Go map `delete(m, k)`. -/
def mapDel (l : List (String × Bool)) (k : String) : List (String × Bool) :=
  match l with
  | [] => []
  | (a, w) :: rest => if a = k then mapDel rest k else (a, w) :: mapDel rest k

theorem mapGet_mapSet_self (l : List (String × Bool)) (k : String) (v : Bool) :
    mapGet (mapSet l k v) k = v := by
  induction l with
  | nil => simp [mapGet, mapSet]
  | cons hd tl ih =>
    obtain ⟨a, w⟩ := hd
    by_cases h : a = k <;> simp [mapGet, mapSet, h, ih]

theorem mapGet_mapSet_other (l : List (String × Bool)) (k k' : String) (v : Bool)
    (h : k ≠ k') : mapGet (mapSet l k v) k' = mapGet l k' := by
  induction l with
  | nil => simp [mapGet, mapSet, h]
  | cons hd tl ih =>
    obtain ⟨a, w⟩ := hd
    by_cases ha : a = k
    · subst ha; simp [mapGet, mapSet, h]
    · simp [mapGet, mapSet, ha, ih]

theorem mapGet_mapDel_self (l : List (String × Bool)) (k : String) :
    mapGet (mapDel l k) k = false := by
  induction l with
  | nil => simp [mapGet, mapDel]
  | cons hd tl ih =>
    obtain ⟨a, w⟩ := hd
    by_cases h : a = k <;> simp [mapGet, mapDel, h, ih]

theorem mapGet_mapDel_other (l : List (String × Bool)) (k k' : String)
    (h : k ≠ k') : mapGet (mapDel l k) k' = mapGet l k' := by
  induction l with
  | nil => simp [mapGet, mapDel]
  | cons hd tl ih =>
    obtain ⟨a, w⟩ := hd
    by_cases ha : a = k
    · subst ha; simp [mapGet, mapDel, h, ih]
    · simp [mapGet, mapDel, ha, ih]

/-! ### The display projection (`buildDisplayLines`) -/

/-- The file lines of one expanded repository, with running file index `j`
(the inner loop of `buildDisplayLines`). -/
def fileLines (repoIdx : Nat) : Nat → List GitHubFile → List DisplayLine
  | _, [] => []
  | j, f :: fs =>
    { isRepo := false, repoIdx := repoIdx, fileIdx := (j : Int),
      text := f.name, isHeader := false } :: fileLines repoIdx (j + 1) fs

/-- The lines contributed by one repository: its header, then its files
when it is not collapsed. -/
def repoLines (repoIdx : Nat) (r : Repository) : List DisplayLine :=
  { isRepo := true, repoIdx := repoIdx, fileIdx := -1,
    text := r.name, isHeader := true } ::
    (if r.collapsed then [] else fileLines repoIdx 0 r.files)

/-- The outer loop of `buildDisplayLines`, with running repository index. -/
def buildLinesFrom : Nat → List Repository → List DisplayLine
  | _, [] => []
  | i, r :: rs => repoLines i r ++ buildLinesFrom (i + 1) rs

/-- The source's `buildDisplayLines`: flatten the repositories into the
render-ready line sequence (headers, then files of expanded repositories). -/
def buildDisplayLines (repos : List Repository) : List DisplayLine :=
  buildLinesFrom 0 repos

/-- Flipping the `Collapsed` flag of repository `i`
(`m.repos[line.repoIdx].Collapsed = !m.repos[line.repoIdx].Collapsed`). -/
def toggleCollapse : List Repository → Nat → List Repository
  | [], _ => []
  | r :: rs, 0 => { r with collapsed := !r.collapsed } :: rs
  | r :: rs, n + 1 => r :: toggleCollapse rs n

theorem toggleCollapse_toggleCollapse (repos : List Repository) (i : Nat) :
    toggleCollapse (toggleCollapse repos i) i = repos := by
  induction repos generalizing i with
  | nil => simp [toggleCollapse]
  | cons r rs ih =>
    cases i with
    | zero => cases r; simp [toggleCollapse]
    | succ n => simp [toggleCollapse, ih]

theorem toggleCollapse_length (repos : List Repository) (i : Nat) :
    (toggleCollapse repos i).length = repos.length := by
  induction repos generalizing i with
  | nil => simp [toggleCollapse]
  | cons r rs ih =>
    cases i with
    | zero => simp [toggleCollapse]
    | succ n => simp [toggleCollapse, ih]

theorem length_buildLinesFrom (i : Nat) (rs : List Repository) :
    rs.length ≤ (buildLinesFrom i rs).length := by
  induction rs generalizing i with
  | nil => simp [buildLinesFrom]
  | cons r rest ih =>
    simp only [buildLinesFrom, List.length_append, List.length_cons, repoLines]
    have := ih (i + 1)
    omega

theorem length_buildDisplayLines (rs : List Repository) :
    rs.length ≤ (buildDisplayLines rs).length :=
  length_buildLinesFrom 0 rs

/-! ### Go string helpers (`strings.Split`, `strings.HasPrefix`,
`strings.TrimPrefix`, `strings.Contains`, `fmt.Sscanf("%d")`) -/

/-- Test `chListLeads p s`: the character list `p` is an initial segment of `s`. -/
def chListLeads : List Char → List Char → Bool
  | [], _ => true
  | _ :: _, [] => false
  | a :: as, b :: bs => a = b && chListLeads as bs

/-- Go `strings.HasPrefix s p`. -/
def goStartsWith (s p : String) : Bool :=
  chListLeads p.data s.data

/-- Go `strings.TrimPrefix s p`. -/
def goTrimStart (s p : String) : String :=
  if goStartsWith s p then ⟨s.data.drop p.data.length⟩ else s

/-- Test `chListHas sub s`: `sub` occurs contiguously somewhere in `s`. -/
def chListHas (sub : List Char) : List Char → Bool
  | [] => chListLeads sub []
  | c :: cs => chListLeads sub (c :: cs) || chListHas sub cs

/-- Go `strings.Contains s sub`. -/
def goContains (s sub : String) : Bool :=
  chListHas sub.data s.data

/-- Splitting a character list at every occurrence of separator `c`
(Go `strings.Split` with a one-character separator). -/
def splitCharList (c : Char) : List Char → List (List Char)
  | [] => [[]]
  | x :: xs =>
    match splitCharList c xs with
    | [] => [[]]
    | hd :: tl => if x = c then [] :: hd :: tl else (x :: hd) :: tl

/-- Go `strings.Split s c` for a one-character separator. -/
def goSplit (c : Char) (s : String) : List String :=
  (splitCharList c s.data).map fun l => ⟨l⟩

/-- Accumulate the leading decimal digits, stopping at the first
non-digit character. -/
def scanDigits : List Char → Nat → Nat
  | [], acc => acc
  | c :: cs, acc => if c.isDigit then scanDigits cs (acc * 10 + (c.toNat - 48)) else acc

/-- The whitespace table of Go's `fmt` scanner (`isSpace` in
`fmt/scan.go`): horizontal tab through carriage return, space, NEL,
no-break space, ogham space mark, the U+2000 range, line and paragraph
separators, narrow no-break space, medium mathematical space, and
ideographic space. -/
def fmtIsSpace (c : Char) : Bool :=
  decide ((9 ≤ c.toNat ∧ c.toNat ≤ 13) ∨ c.toNat = 32 ∨ c.toNat = 0x85 ∨
    c.toNat = 0xA0 ∨ c.toNat = 0x1680 ∨ (0x2000 ≤ c.toNat ∧ c.toNat ≤ 0x200A) ∨
    c.toNat = 0x2028 ∨ c.toNat = 0x2029 ∨ c.toNat = 0x202F ∨ c.toNat = 0x205F ∨
    c.toNat = 0x3000)

/-- The `SkipSpace` loop of Go's `fmt` scanner in `Scanf` mode
(`nlIsSpace` false): a carriage return immediately followed by a line
feed is consumed and the line feed then read, and a line feed is an
"unexpected newline" error (`none`); a bare carriage return and every
other table character are skipped; the remainder starts at the first
non-space character. -/
def skipFmtSpace : List Char → Option (List Char)
  | [] => some []
  | c :: cs =>
    if c = '\r' then
      match cs with
      | '\n' :: _ => none
      | _ => skipFmtSpace cs
    else if c = '\n' then none
    else if fmtIsSpace c then skipFmtSpace cs
    else some (c :: cs)

/-- Go `fmt.Sscanf(s, "%d", &v)` into a fresh 64-bit `int` variable:
leading whitespace from the `fmt` space table is skipped (a line feed
there is an "unexpected newline" error), then an optional sign and a
maximal run of decimal digits are read and parsed as an `int64` by
`strconv.ParseInt`; on every error path — unexpected newline, no digit
to read, or the digit run overflowing the `int64` range — the scan
fails and the variable keeps its zero value. -/
def goScanInt (s : String) : Int :=
  match skipFmtSpace s.data with
  | none => 0
  | some l =>
    match l with
    | '-' :: c :: cs =>
      if c.isDigit then
        let signed : Int := -((scanDigits (c :: cs) 0 : Nat) : Int)
        if signed < -(2 ^ 63) then 0 else signed
      else 0
    | '+' :: c :: cs =>
      if c.isDigit then
        let signed : Int := ((scanDigits (c :: cs) 0 : Nat) : Int)
        if 2 ^ 63 - 1 < signed then 0 else signed
      else 0
    | c :: cs =>
      if c.isDigit then
        let signed : Int := ((scanDigits (c :: cs) 0 : Nat) : Int)
        if 2 ^ 63 - 1 < signed then 0 else signed
      else 0
    | [] => 0

/-! ### Go slice indexing: a read out of range panics -/

/-- Go slice read `l[i]` with a `Nat` index: panics when out of range. -/
def goIdxNat {α : Type} (l : List α) (i : Nat) : Except String α :=
  match l[i]? with
  | some x => .ok x
  | none => .error "runtime error: index out of range"

/-- Go slice read `l[i]` with an `int` index: panics when negative or
out of range. -/
def goIdxInt {α : Type} (l : List α) (i : Int) : Except String α :=
  if i < 0 then .error "runtime error: index out of range"
  else goIdxNat l i.toNat

/-! ### Messages, commands, application state -/

/-- The opaque state of a dynamically loaded guest component
(`tea.Model` of the plugin): the host never inspects it. -/
abbrev Guest := Nat

/-- The events delivered to `Update` (the `tea.Msg` values of the source:
key presses, window size, the loader/operation/terminal completion
messages, spinner ticks, and plain string messages such as the
`PLUGIN_QUIT:<id>` sentinel emitted by guests). -/
inductive Msg where
  | key (k : String)
  | windowSize (w h : Int)
  | filesLoaded (repos : List Repository) (err : Option String)
  | operationComplete (filename operation : String) (err : Option String)
  | allOperationsComplete
  | pluginLoaded (g : Option Guest) (err : Option String)
  | tick
  | str (s : String)
deriving DecidableEq

/-- The commands `Update` can return (the `tea.Cmd` values of the source).
`fromGuest` wraps a command propagated from the guest unchanged; the host
treats it as opaque. -/
inductive Cmd where
  | quit
  | batch (cs : List Cmd)
  | deleteFileCmd (filename : String)
  | downloadFileCmd (file : GitHubFile)
  | emitAllOpsComplete
  | loadPluginCmd (filename : String)
  | tickCmd
  | tick3s
  | guestInit
  | fromGuest (c : Nat)

/-- The application state (the `model` struct of the source).  The
`tuiMutex` field (a defensive lock, not data) is omitted; wall-clock
timestamps on log entries are omitted. -/
structure Model where
  width : Int := 0
  height : Int := 0
  repos : List Repository := []
  loading : Bool := false
  processing : Bool := false
  err : Option String := none
  spinnerFrame : Nat := 0
  cursor : Int := 0
  statusMsg : String := ""
  localFiles : List (String × Bool) := []
  selected : List String := []
  cmdTemplate : String := ""
  activePanel : Nat := 0
  logs : List String := []
  tuiOutput : List String := []
  runningTUI : String := ""
  embeddedTUI : Option Guest := none
  scrollOffset : Int := 0
  embeddedPluginID : String := ""
  pluginDir : String := ""
  displayLines : List DisplayLine := []

/-- The external collaborators `Update` interacts with: the guest's own
update function (`gstep`, returning its next state and an optional opaque
command), the storage probe (`os.Stat`), and the alias-ledger writers
(`addAliasToPluginBashrc` / `removeAliasFromPluginBashrc`, observed only
through their optional error). -/
structure Env where
  gstep : Guest → Msg → Guest × Option Nat
  probe : String → Bool
  addAliasErr : String → Option String
  removeAliasErr : String → Option String

/-- The outcome of one update step: the new model, the returned command,
and the instrumented list of events delivered to the guest's `Update`
during the step (in call order). -/
structure UpdRes where
  model : Model
  cmd : Option Cmd
  forwarded : List Msg

/-- Control flow inside the key handler: `early` models a `return`
statement, `cont` falls through to the trailing propagation. -/
inductive Flow where
  | early (m : Model) (c : Option Cmd)
  | cont (m : Model)

/-- One call `m.embeddedTUI.Update(msg)`: the guest advances and may
return a command, which the host wraps opaquely. -/
def guestStep (env : Env) (g : Guest) (msg : Msg) : Guest × Option Cmd :=
  ((env.gstep g msg).1, (env.gstep g msg).2.map Cmd.fromGuest)

def spinnerFrames : List String := ["|", "/", "-", "\\"]

/-- The sentinel tag of the guest quit-signal protocol. -/
def quitSignalTag : String := "PLUGIN_QUIT:"

/-! ### The batch dispatcher (`processSelectedFiles`) -/

/-- The body of the `processSelectedFiles` loop for one selection key:
split on `:`, scan both fields, skip keys that do not split in two or
whose indices are out of range (Go evaluates `repoIdx >= len(m.repos)`
before indexing, so a negative `repoIdx` or `fileIdx` that survives the
upper-bound test panics at the slice read), then classify by Local
Inventory membership. -/
def resolveKey (m : Model) (k : String) : Except String (Option Cmd) :=
  match goSplit ':' k with
  | [p0, p1] =>
    let repoIdx := goScanInt p0
    let fileIdx := goScanInt p1
    if (m.repos.length : Int) ≤ repoIdx then .ok none
    else do
      let repo ← goIdxInt m.repos repoIdx
      if (repo.files.length : Int) ≤ fileIdx then .ok none
      else do
        let file ← goIdxInt repo.files fileIdx
        .ok (some (if mapGet m.localFiles file.name then
          Cmd.deleteFileCmd file.name else Cmd.downloadFileCmd file))
  | _ => .ok none

/-- The `processSelectedFiles` loop over all selection keys, in iteration
order, keeping the dispatched commands. -/
def collectOps (m : Model) : List String → Except String (List Cmd)
  | [] => .ok []
  | k :: ks => do
    let o ← resolveKey m k
    let rest ← collectOps m ks
    match o with
    | some c => .ok (c :: rest)
    | none => .ok rest

/-- The source's `processSelectedFiles`: one asynchronous action per
selected entry, then the terminal `allOperationsCompleteMsg` emitter,
wrapped in `tea.Batch`. -/
def processSelectedFiles (m : Model) : Except String Cmd := do
  let cmds ← collectOps m m.selected
  .ok (Cmd.batch (cmds ++ [Cmd.emitAllOpsComplete]))

/-! ### The update function (`Update`) -/

/-- The `tab` branch of the key handler: cycle the focused panel over the
panels currently available and reset the scroll offset. -/
def applyTab (m : Model) (k : String) : Model :=
  if k = "tab" ∧ m.loading = false ∧ m.processing = false then
    { m with
      activePanel := (m.activePanel + 1) % (if m.embeddedTUI.isSome then 3 else 2),
      scrollOffset := 0 }
  else m

/-- The catalog-panel navigation block of the key handler (arrow keys,
`enter`, space, `e`, `c`), active only while the catalog panel has focus
and neither loading nor a batch is in progress. -/
def navBlock (m : Model) (k : String) : Except String Flow :=
  if m.loading = false ∧ m.processing = false ∧
      0 < m.displayLines.length ∧ m.activePanel = 0 then
    if k = "up" ∨ k = "k" then
      .ok (.cont (if 0 < m.cursor then { m with cursor := m.cursor - 1 } else m))
    else if k = "down" ∨ k = "j" then
      .ok (.cont (if m.cursor < (m.displayLines.length : Int) - 1 then
        { m with cursor := m.cursor + 1 } else m))
    else if k = "enter" then do
      let line ← goIdxInt m.displayLines m.cursor
      if line.isHeader then do
        let _r ← goIdxNat m.repos line.repoIdx
        let repos' := toggleCollapse m.repos line.repoIdx
        let dls := buildDisplayLines repos'
        let cursor' := if (dls.length : Int) ≤ m.cursor then (dls.length : Int) - 1
          else m.cursor
        .ok (.cont { m with repos := repos', displayLines := dls, cursor := cursor' })
      else
        if 0 < m.selected.length then do
          let m' := { m with
            processing := true,
            statusMsg := "Traitement de " ++ toString m.selected.length ++ " Plugin(s)...",
            logs := m.logs ++
              ["🚀 Démarrage du traitement de " ++ toString m.selected.length ++ " Plugin(s)"] }
          let c ← processSelectedFiles m'
          .ok (.early m' (some c))
        else .ok (.cont m)
    else if k = " " then do
      let line ← goIdxInt m.displayLines m.cursor
      if line.isHeader then .ok (.cont m)
      else
        let key := toString line.repoIdx ++ ":" ++ toString line.fileIdx
        if key ∈ m.selected then
          .ok (.cont { m with selected := m.selected.filter (fun x => x ≠ key) })
        else
          .ok (.cont { m with selected := m.selected ++ [key] })
    else if k = "e" then do
      let line ← goIdxInt m.displayLines m.cursor
      if line.isHeader then .ok (.cont m)
      else do
        let repo ← goIdxNat m.repos line.repoIdx
        let file ← goIdxInt repo.files line.fileIdx
        if mapGet m.localFiles file.name then
          .ok (.early
            { m with
              runningTUI := file.name,
              logs := m.logs ++ ["▶️ Chargement de " ++ file.name],
              activePanel := 2 }
            (some (Cmd.loadPluginCmd file.name)))
        else
          .ok (.cont { m with logs := m.logs ++ ["⚠️ " ++ file.name ++ " n\x27est pas téléchargé"] })
    else if k = "c" then .ok (.cont { m with selected := [] })
    else .ok (.cont m)
  else .ok (.cont m)

/-- The log-panel scroll block of the key handler. -/
def scrollBlock (m : Model) (k : String) : Model :=
  if m.activePanel = 1 ∧ 0 < m.logs.length then
    if k = "up" ∨ k = "k" then
      if 0 < m.scrollOffset then { m with scrollOffset := m.scrollOffset - 1 } else m
    else if k = "down" ∨ k = "j" then
      if m.scrollOffset < (m.logs.length : Int) - 57 then
        { m with scrollOffset := m.scrollOffset + 1 } else m
    else if k = "ctrl+up" then { m with scrollOffset := 0 }
    else if k = "ctrl+down" then { m with scrollOffset := (m.logs.length : Int) - 57 }
    else m
  else m

/-- The `tea.KeyMsg` case of `Update`: quit keys first, then the tab,
navigation and scroll blocks in source order. -/
def handleKey (m : Model) (k : String) : Except String Flow :=
  if k = "q" ∨ k = "ctrl+c" then .ok (.early m (some Cmd.quit))
  else do
    let m1 := applyTab m k
    match ← navBlock m1 k with
    | .early m' c => .ok (.early m' c)
    | .cont m2 => .ok (.cont (scrollBlock m2 k))

/-- The `m.localFiles` rebuild on catalog load: probe storage for every
catalog entry name and record the hits. -/
def probeAll (env : Env) (repos : List Repository) : List (String × Bool) :=
  repos.foldl
    (fun acc r =>
      r.files.foldl (fun acc f => if env.probe f.name then mapSet acc f.name true else acc) acc)
    []

/-- The `filesLoadedMsg` case of `Update`. -/
def handleFilesLoaded (env : Env) (m : Model) (repos : List Repository)
    (err : Option String) : Model :=
  let m := { m with loading := false }
  match err with
  | some e => { m with err := some e, logs := m.logs ++ ["❌ Erreur lors du chargement: " ++ e] }
  | none =>
    let total := (repos.map (fun r => r.files.length)).sum
    let m := { m with
      repos := repos,
      logs := m.logs ++
        ["✅ " ++ toString repos.length ++ " Repository(s) chargé(s) avec " ++
          toString total ++ " Plugin(s)"],
      localFiles := probeAll env repos }
    { m with displayLines := buildDisplayLines repos }

/-- The `operationCompleteMsg` case of `Update`. -/
def handleOperationComplete (env : Env) (m : Model) (fn op : String)
    (err : Option String) : Model :=
  match err with
  | some e =>
    { m with
      statusMsg := "❌ Erreur " ++ fn ++ ": " ++ e,
      logs := m.logs ++ ["❌ Erreur " ++ op ++ " " ++ fn ++ ": " ++ e] }
  | none =>
    if op = "download" then
      let m := { m with
        statusMsg := "✅ " ++ fn ++ " téléchargé!",
        localFiles := mapSet m.localFiles fn true,
        logs := m.logs ++ ["⬇️ " ++ fn ++ " téléchargé avec succès"] }
      match env.addAliasErr fn with
      | some e => { m with logs := m.logs ++ ["⚠️ Impossible d\x27ajouter l\x27alias pour " ++ fn ++ ": " ++ e] }
      | none => { m with logs := m.logs ++ ["🔗 Alias ajouté pour " ++ fn] }
    else
      let m := { m with
        statusMsg := "🗑️ " ++ fn ++ " supprimé!",
        localFiles := mapDel m.localFiles fn,
        logs := m.logs ++ ["🗑️ " ++ fn ++ " supprimé avec succès"] }
      let m := match env.removeAliasErr fn with
        | some e => { m with logs := m.logs ++ ["⚠️ Impossible de retirer l\x27alias pour " ++ fn ++ ": " ++ e] }
        | none => { m with logs := m.logs ++ ["🔗 Alias supprimé pour " ++ fn] }
      if m.runningTUI = fn then { m with embeddedTUI := none, runningTUI := "" } else m

/-- The trailing propagation of `Update`: when a guest exists, forward the
message to it and return its command; otherwise return no command. -/
def propagate (env : Env) (m : Model) (msg : Msg) : UpdRes :=
  match m.embeddedTUI with
  | some g =>
    let s := guestStep env g msg
    { model := { m with embeddedTUI := some s.1 }, cmd := s.2, forwarded := [msg] }
  | none => { model := m, cmd := none, forwarded := [] }

/-- The main type switch of `Update` (reached when no focused embedded
session intercepts the message). -/
def updateMain (env : Env) (m : Model) (msg : Msg) : Except String UpdRes :=
  match msg with
  | .key k => do
    match ← handleKey m k with
    | .early m' c => .ok ⟨m', c, []⟩
    | .cont m' => .ok (propagate env m' msg)
  | .windowSize w h => .ok (propagate env { m with width := w, height := h } msg)
  | .filesLoaded rs e => .ok (propagate env (handleFilesLoaded env m rs e) msg)
  | .operationComplete fn op e =>
    .ok (propagate env (handleOperationComplete env m fn op e) msg)
  | .allOperationsComplete =>
    .ok ⟨{ m with
      processing := false, selected := [],
      statusMsg := "✅ Toutes les opérations terminées!",
      logs := m.logs ++ ["✅ Toutes les opérations terminées!"] }, some Cmd.tick3s, []⟩
  | .pluginLoaded g e =>
    match e with
    | some msgErr =>
      .ok (propagate env
        { m with
          logs := m.logs ++ ["❌ Erreur chargement plugin: " ++ msgErr],
          runningTUI := "", activePanel := 0 } msg)
    | none =>
      match g with
      | some guest =>
        .ok ⟨{ m with
          embeddedTUI := some guest,
          logs := m.logs ++ ["✅ Plugin " ++ m.runningTUI ++ " chargé avec succès"] },
          some Cmd.guestInit, []⟩
      | none => .error "runtime error: invalid memory address or nil pointer dereference"
  | .tick =>
    if m.loading = true ∨ m.processing = true then
      .ok ⟨{ m with spinnerFrame := (m.spinnerFrame + 1) % spinnerFrames.length },
        some Cmd.tickCmd, []⟩
    else if m.statusMsg ≠ "" ∧ goContains m.statusMsg "..." = false then
      .ok (propagate env { m with statusMsg := "" } msg)
    else .ok (propagate env m msg)
  | .str _ => .ok (propagate env m msg)

/-- The focused-embedded-session branch of `Update`: every message is
first forwarded to the guest, then the host inspects the raw message for
the `PLUGIN_QUIT:<id>` sentinel and intercepts it when the identifier
matches the session identifier or that identifier is unset. -/
def updateEmbeddedFocus (env : Env) (m : Model) (g : Guest) (msg : Msg) :
    Except String UpdRes :=
  let s := guestStep env g msg
  let mForwarded := { m with embeddedTUI := some s.1 }
  match msg with
  | .str raw =>
    if goStartsWith raw quitSignalTag then
      let id := goTrimStart raw quitSignalTag
      if mForwarded.embeddedPluginID = "" ∨ mForwarded.embeddedPluginID = id then
        .ok ⟨{ mForwarded with
          logs := mForwarded.logs ++
            ["🛑 Plugin arrêté: " ++ (if id = "" then mForwarded.runningTUI else id)],
          embeddedTUI := none, embeddedPluginID := "", runningTUI := "",
          activePanel := 0 }, none, [msg]⟩
      else .ok ⟨mForwarded, s.2, [msg]⟩
    else .ok ⟨mForwarded, s.2, [msg]⟩
  | _ => .ok ⟨mForwarded, s.2, [msg]⟩

/-- The source's `Update`: while a guest exists and the embedded panel
has focus every message goes through `updateEmbeddedFocus`; otherwise the
main type switch runs, followed by the trailing propagation. -/
def update (env : Env) (m : Model) (msg : Msg) : Except String UpdRes :=
  match m.embeddedTUI with
  | some g => if m.activePanel = 2 then updateEmbeddedFocus env m g msg else updateMain env m msg
  | none => updateMain env m msg

/-! ### Generic helper lemmas -/

theorem except_bind_ok {α β : Type} (x : Except String α) (f : α → Except String β) (b : β) :
    (x >>= f) = Except.ok b ↔ ∃ a, x = Except.ok a ∧ f a = Except.ok b := by
  cases x <;> simp [Bind.bind, Except.bind]

theorem except_ok_bind {α β : Type} (a : α) (f : α → Except String β) :
    (Except.ok a >>= f) = f a := rfl

theorem chListLeads_append (p r : List Char) : chListLeads p (p ++ r) = true := by
  induction p with
  | nil => simp [chListLeads]
  | cons a as ih => simp [chListLeads, ih]

theorem goStartsWith_append (p r : String) : goStartsWith (p ++ r) p = true := by
  have hd : (p ++ r).data = p.data ++ r.data := rfl
  simp [goStartsWith, hd, chListLeads_append]

theorem goTrimStart_append (p r : String) : goTrimStart (p ++ r) p = r := by
  have hd : (p ++ r).data = p.data ++ r.data := rfl
  simp only [goTrimStart, goStartsWith_append, if_pos, hd, List.drop_left]

theorem guestStep_cmd_ne_quit (env : Env) (g : Guest) (msg : Msg) :
    (guestStep env g msg).2 ≠ some Cmd.quit := by
  simp only [guestStep]
  cases (env.gstep g msg).2 <;> simp

/-! ### C1: the quit-signal protocol of the embedded host -/

/-- C1: While an Embedded Session is Active (guest set, Embedded panel
focused), delivering the event string `PLUGIN_QUIT:<id>` first forwards
the event to the guest, then terminates the session (guest cleared,
plugin id and running name reset, focus returned to the Catalog panel,
no command propagated) if and only if `<id>` matches the session
identifier or that identifier is unset; on a mismatch the session and its
fields are untouched and the guest's command is propagated instead. -/
theorem pluginQuit_teardown_iff (env : Env) (m : Model) (g : Guest) (id : String)
    (hg : m.embeddedTUI = some g) (hp : m.activePanel = 2) :
    ∃ r, update env m (Msg.str (quitSignalTag ++ id)) = Except.ok r ∧
      r.forwarded = [Msg.str (quitSignalTag ++ id)] ∧
      (if m.embeddedPluginID = "" ∨ m.embeddedPluginID = id then
        r.model.embeddedTUI = none ∧ r.model.embeddedPluginID = "" ∧
          r.model.runningTUI = "" ∧ r.model.activePanel = 0 ∧ r.cmd = none
      else
        r.model.embeddedTUI = some (env.gstep g (Msg.str (quitSignalTag ++ id))).1 ∧
          r.model.embeddedPluginID = m.embeddedPluginID ∧
          r.model.runningTUI = m.runningTUI ∧ r.model.activePanel = m.activePanel ∧
          r.cmd = (env.gstep g (Msg.str (quitSignalTag ++ id))).2.map Cmd.fromGuest) := by
  by_cases hid : m.embeddedPluginID = "" ∨ m.embeddedPluginID = id <;>
    simp [update, hg, hp, updateEmbeddedFocus, goStartsWith_append, goTrimStart_append,
      guestStep, hid]

/-- A fixed benign environment for concrete runs: the guest accepts every
event and returns no command, no file is present in storage, the alias
ledger never fails. -/
def cexEnv : Env :=
  ⟨fun g _ => (g, none), fun _ => false, fun _ => none, fun _ => none⟩

/-- Witness for C1 at a concrete active session with unset identifier. -/
theorem pluginQuit_teardown_iff_witness :
    ∃ r, update cexEnv { activePanel := 2, embeddedTUI := some 0 }
        (Msg.str (quitSignalTag ++ "x")) = Except.ok r ∧
      r.forwarded = [Msg.str (quitSignalTag ++ "x")] ∧
      (if ({ activePanel := 2, embeddedTUI := some 0 } : Model).embeddedPluginID = "" ∨
          ({ activePanel := 2, embeddedTUI := some 0 } : Model).embeddedPluginID = "x" then
        r.model.embeddedTUI = none ∧ r.model.embeddedPluginID = "" ∧
          r.model.runningTUI = "" ∧ r.model.activePanel = 0 ∧ r.cmd = none
      else
        r.model.embeddedTUI =
            some (cexEnv.gstep 0 (Msg.str (quitSignalTag ++ "x"))).1 ∧
          r.model.embeddedPluginID =
            ({ activePanel := 2, embeddedTUI := some 0 } : Model).embeddedPluginID ∧
          r.model.runningTUI = ({ activePanel := 2, embeddedTUI := some 0 } : Model).runningTUI ∧
          r.model.activePanel = ({ activePanel := 2, embeddedTUI := some 0 } : Model).activePanel ∧
          r.cmd = (cexEnv.gstep 0 (Msg.str (quitSignalTag ++ "x"))).2.map Cmd.fromGuest) :=
  pluginQuit_teardown_iff cexEnv { activePanel := 2, embeddedTUI := some 0 } 0 "x" rfl rfl

/-! ### C2: session teardown on removal of the backing file -/

/-- C2 counterexample: with the Embedded panel focused, a successful
remove completion for the running plugin is forwarded to the guest and
the session is NOT torn down (guest still set, running name kept, focus
still on the Embedded panel), refuting the claim's "regardless of which
panel currently has focus" and "returns focus to the Catalog panel". -/
theorem removeCompletion_embeddedFocus_counterexample :
    (update cexEnv { activePanel := 2, embeddedTUI := some 0, runningTUI := "a" }
        (Msg.operationComplete "a" "delete" none)).map
      (fun r => (r.model.embeddedTUI, r.model.runningTUI, r.model.activePanel)) =
    Except.ok (some 0, "a", 2) := rfl

/-- C2 (amended): when the host itself processes a successful remove
completion for the running plugin — i.e. whenever the Embedded panel does
not have focus — the session is torn down on that very update cycle
(guest cleared, running name reset, Local Inventory entry false, no
command), but the focused panel is left unchanged rather than reset to
the Catalog panel. -/
theorem removeCompletion_teardown_hostSide (env : Env) (m : Model) (g : Guest) (n : String)
    (hg : m.embeddedTUI = some g) (hp : m.activePanel ≠ 2) (hr : m.runningTUI = n) :
    ∃ r, update env m (Msg.operationComplete n "delete" none) = Except.ok r ∧
      r.model.embeddedTUI = none ∧ r.model.runningTUI = "" ∧
      r.model.activePanel = m.activePanel ∧
      mapGet r.model.localFiles n = false ∧ r.cmd = none := by
  cases hal : env.removeAliasErr n <;>
    simp [update, hg, hp, updateMain, handleOperationComplete, hal, hr, propagate,
      mapGet_mapDel_self]

/-- Witness for C2's amended theorem at a concrete state (catalog panel
focused, session active for plugin `a`). -/
theorem removeCompletion_teardown_hostSide_witness :
    ∃ r, update cexEnv { activePanel := 0, embeddedTUI := some 0, runningTUI := "a" }
        (Msg.operationComplete "a" "delete" none) = Except.ok r ∧
      r.model.embeddedTUI = none ∧ r.model.runningTUI = "" ∧
      r.model.activePanel =
        ({ activePanel := 0, embeddedTUI := some 0, runningTUI := "a" } : Model).activePanel ∧
      mapGet r.model.localFiles "a" = false ∧ r.cmd = none :=
  removeCompletion_teardown_hostSide cexEnv
    { activePanel := 0, embeddedTUI := some 0, runningTUI := "a" } 0 "a" rfl (by decide) rfl

/-! ### C5: when `Update` returns the quit command -/

theorem propagate_cmd_ne_quit (env : Env) (m : Model) (msg : Msg) :
    (propagate env m msg).cmd ≠ some Cmd.quit := by
  cases hg : m.embeddedTUI with
  | none => simp [propagate, hg]
  | some g =>
    simpa [propagate, hg] using guestStep_cmd_ne_quit env g msg

theorem updateEmbeddedFocus_cmd_ne_quit (env : Env) (m : Model) (g : Guest) (msg : Msg)
    (r : UpdRes) (h : updateEmbeddedFocus env m g msg = Except.ok r) :
    r.cmd ≠ some Cmd.quit := by
  have hq := guestStep_cmd_ne_quit env g msg
  cases msg <;> simp only [updateEmbeddedFocus] at h
  case str raw =>
    by_cases hpre : goStartsWith raw quitSignalTag = true
    · rw [if_pos hpre] at h
      by_cases hid : ({ m with embeddedTUI := some (guestStep env g (Msg.str raw)).1 } :
          Model).embeddedPluginID = "" ∨
          ({ m with embeddedTUI := some (guestStep env g (Msg.str raw)).1 } :
            Model).embeddedPluginID = goTrimStart raw quitSignalTag
      · rw [if_pos hid] at h
        cases h
        simp
      · rw [if_neg hid] at h
        cases h
        exact hq
    · rw [if_neg hpre] at h
      cases h
      exact hq
  all_goals cases h <;> exact hq

theorem processSelectedFiles_ok_batch (m : Model) (cb : Cmd)
    (h : processSelectedFiles m = Except.ok cb) : ∃ l, cb = Cmd.batch l := by
  simp only [processSelectedFiles] at h
  rw [except_bind_ok] at h
  obtain ⟨ops, hops, h⟩ := h
  simp only [Except.ok.injEq] at h
  exact ⟨_, h.symm⟩

theorem navBlock_early_ne_quit (m : Model) (k : String) (m' : Model) (c : Option Cmd)
    (h : navBlock m k = Except.ok (.early m' c)) : c ≠ some Cmd.quit := by
  simp only [navBlock] at h
  split at h
  · split at h
    · simp at h
    · split at h
      · simp at h
      · split at h
        · rw [except_bind_ok] at h
          obtain ⟨line, hline, h⟩ := h
          split at h
          · rw [except_bind_ok] at h
            obtain ⟨rr, hrr, h⟩ := h
            simp at h
          · split at h
            · rw [except_bind_ok] at h
              obtain ⟨cb, hcb, h⟩ := h
              obtain ⟨l, rfl⟩ := processSelectedFiles_ok_batch _ _ hcb
              simp only [Except.ok.injEq, Flow.early.injEq] at h
              obtain ⟨-, h2⟩ := h
              rw [← h2]
              simp
            · simp at h
        · split at h
          · rw [except_bind_ok] at h
            obtain ⟨line, hline, h⟩ := h
            split at h
            · simp at h
            · split at h <;> simp at h
          · split at h
            · rw [except_bind_ok] at h
              obtain ⟨line, hline, h⟩ := h
              split at h
              · simp at h
              · rw [except_bind_ok] at h
                obtain ⟨repo, hrepo, h⟩ := h
                rw [except_bind_ok] at h
                obtain ⟨file, hfile, h⟩ := h
                split at h
                · simp only [Except.ok.injEq] at h
                  cases h
                  simp
                · simp at h
            · split at h <;> simp at h
  · simp at h

theorem handleKey_quit_keys (m : Model) (k : String) (hk : k = "q" ∨ k = "ctrl+c") :
    handleKey m k = Except.ok (.early m (some Cmd.quit)) := by
  simp [handleKey, hk]

theorem handleKey_early_ne_quit (m : Model) (k : String) (m' : Model) (c : Option Cmd)
    (hk : ¬(k = "q" ∨ k = "ctrl+c")) (h : handleKey m k = Except.ok (.early m' c)) :
    c ≠ some Cmd.quit := by
  simp only [handleKey, if_neg hk] at h
  rw [except_bind_ok] at h
  obtain ⟨fl, hfl, h⟩ := h
  cases fl with
  | early m'' c'' =>
    simp only [Except.ok.injEq, Flow.early.injEq] at h
    obtain ⟨-, h2⟩ := h
    exact h2 ▸ navBlock_early_ne_quit (applyTab m k) k m'' c'' hfl
  | cont m2 => simp at h

theorem updateMain_quit_iff (env : Env) (m : Model) (msg : Msg) (r : UpdRes)
    (h : updateMain env m msg = Except.ok r) :
    r.cmd = some Cmd.quit ↔ (msg = Msg.key "q" ∨ msg = Msg.key "ctrl+c") := by
  cases msg with
  | key k =>
    simp only [updateMain] at h
    rw [except_bind_ok] at h
    obtain ⟨fl, hfl, h⟩ := h
    by_cases hk : k = "q" ∨ k = "ctrl+c"
    · rw [handleKey_quit_keys m k hk] at hfl
      cases hfl
      simp only [Except.ok.injEq] at h
      cases h
      simpa using hk
    · cases fl with
      | early m' c =>
        simp only [Except.ok.injEq] at h
        cases h
        have := handleKey_early_ne_quit m k m' c hk hfl
        simp only [Msg.key.injEq]
        exact ⟨fun hc => absurd hc this, fun hc => absurd hc hk⟩
      | cont m' =>
        simp only [Except.ok.injEq] at h
        cases h
        have := propagate_cmd_ne_quit env m' (Msg.key k)
        simp only [Msg.key.injEq]
        exact ⟨fun hc => absurd hc this, fun hc => absurd hc hk⟩
  | windowSize w hh =>
    simp only [updateMain, Except.ok.injEq] at h
    cases h
    exact ⟨fun hc => absurd hc (propagate_cmd_ne_quit _ _ _), fun hc => by simp at hc⟩
  | filesLoaded rs e =>
    simp only [updateMain, Except.ok.injEq] at h
    cases h
    exact ⟨fun hc => absurd hc (propagate_cmd_ne_quit _ _ _), fun hc => by simp at hc⟩
  | operationComplete fn op e =>
    simp only [updateMain, Except.ok.injEq] at h
    cases h
    exact ⟨fun hc => absurd hc (propagate_cmd_ne_quit _ _ _), fun hc => by simp at hc⟩
  | allOperationsComplete =>
    simp only [updateMain, Except.ok.injEq] at h
    cases h
    exact ⟨fun hc => by simp at hc, fun hc => by simp at hc⟩
  | pluginLoaded g e =>
    cases e with
    | some msgErr =>
      simp only [updateMain, Except.ok.injEq] at h
      cases h
      exact ⟨fun hc => absurd hc (propagate_cmd_ne_quit _ _ _), fun hc => by simp at hc⟩
    | none =>
      cases g with
      | some guest =>
        simp only [updateMain, Except.ok.injEq] at h
        cases h
        exact ⟨fun hc => by simp at hc, fun hc => by simp at hc⟩
      | none => simp [updateMain] at h
  | tick =>
    simp only [updateMain] at h
    split at h
    · simp only [Except.ok.injEq] at h
      cases h
      exact ⟨fun hc => by simp at hc, fun hc => by simp at hc⟩
    · split at h
      · simp only [Except.ok.injEq] at h
        cases h
        exact ⟨fun hc => absurd hc (propagate_cmd_ne_quit _ _ _), fun hc => by simp at hc⟩
      · simp only [Except.ok.injEq] at h
        cases h
        exact ⟨fun hc => absurd hc (propagate_cmd_ne_quit _ _ _), fun hc => by simp at hc⟩
  | str s =>
    simp only [updateMain, Except.ok.injEq] at h
    cases h
    exact ⟨fun hc => absurd hc (propagate_cmd_ne_quit _ _ _), fun hc => by simp at hc⟩

/-- C5 counterexample: while an Embedded Session is Active and owns
focus, the key event `q` is forwarded to the guest and the update
function does NOT return the quit command, refuting "regardless of which
panel currently has focus (including while an Embedded Session is Active
and owns focus)". -/
theorem quitKey_embeddedFocus_counterexample :
    (update cexEnv { activePanel := 2, embeddedTUI := some 0 } (Msg.key "q")).map
      (fun r => match r.cmd with | some Cmd.quit => true | _ => false) =
    Except.ok false := rfl

/-- C5 (amended): the update function returns the quit command exactly on
a `q` or `ctrl+c` key event that the host itself processes — that is,
when no Active Embedded Session owns focus; while the Embedded panel has
focus with a guest set, every event (quit keys included) is forwarded to
the guest and only the guest's own command, treated as opaque, is
propagated. -/
theorem update_quit_iff (env : Env) (m : Model) (msg : Msg) (r : UpdRes)
    (h : update env m msg = Except.ok r) :
    r.cmd = some Cmd.quit ↔
      ((msg = Msg.key "q" ∨ msg = Msg.key "ctrl+c") ∧
        (m.embeddedTUI = none ∨ m.activePanel ≠ 2)) := by
  cases hg : m.embeddedTUI with
  | none =>
    simp only [update, hg] at h
    rw [updateMain_quit_iff env m msg r h]
    simp [hg]
  | some g =>
    by_cases hp : m.activePanel = 2
    · simp only [update, hg, if_pos hp] at h
      have := updateEmbeddedFocus_cmd_ne_quit env m g msg r h
      simp [this, hg, hp]
    · simp only [update, hg, if_neg hp] at h
      rw [updateMain_quit_iff env m msg r h]
      simp [hp]

/-- Witness for C5's amended theorem: from the catalog panel, `q` yields
the quit command. -/
theorem update_quit_iff_witness :
    (some Cmd.quit = some Cmd.quit ↔
      ((Msg.key "q" = Msg.key "q" ∨ Msg.key "q" = Msg.key "ctrl+c") ∧
        (({} : Model).embeddedTUI = none ∨ ({} : Model).activePanel ≠ 2))) :=
  update_quit_iff cexEnv {} (Msg.key "q")
    { model := {}, cmd := some Cmd.quit, forwarded := [] } rfl

/-! ### C7: cursor clamping on projection rebuilds -/

theorem propagate_model_cursor (env : Env) (m : Model) (msg : Msg) :
    (propagate env m msg).model.cursor = m.cursor ∧
    (propagate env m msg).model.displayLines = m.displayLines := by
  cases hg : m.embeddedTUI <;> simp [propagate, hg]

/-- Reduction of `Update` on `enter` over a header line: the repository's
collapse flag is toggled, the projection rebuilt, and the cursor clamped,
then control falls through to the trailing propagation. -/
theorem update_enter_header (env : Env) (m : Model) (line : DisplayLine)
    (hload : m.loading = false) (hproc : m.processing = false)
    (hpanel : m.activePanel = 0)
    (hline : goIdxInt m.displayLines m.cursor = Except.ok line)
    (hhdr : line.isHeader = true) (hri : line.repoIdx < m.repos.length) :
    update env m (Msg.key "enter") =
      Except.ok (propagate env
        { m with
          repos := toggleCollapse m.repos line.repoIdx,
          displayLines := buildDisplayLines (toggleCollapse m.repos line.repoIdx),
          cursor :=
            if ((buildDisplayLines (toggleCollapse m.repos line.repoIdx)).length : Int) ≤
                m.cursor then
              ((buildDisplayLines (toggleCollapse m.repos line.repoIdx)).length : Int) - 1
            else m.cursor }
        (Msg.key "enter")) := by
  have hp2 : ¬ m.activePanel = 2 := by rw [hpanel]; decide
  have hcne : ¬ m.cursor < 0 := by
    intro hneg
    rw [goIdxInt, if_pos hneg] at hline
    simp at hline
  have hlen0 : 0 < m.displayLines.length := by
    rw [goIdxInt, if_neg hcne, goIdxNat] at hline
    cases hq : m.displayLines[m.cursor.toNat]? with
    | none => rw [hq] at hline; simp at hline
    | some x =>
      have hx := (List.getElem?_eq_some.mp hq).1
      omega
  have hrp : m.repos[line.repoIdx]? = some (m.repos.get ⟨line.repoIdx, hri⟩) :=
    List.getElem?_eq_getElem hri
  have happly : applyTab m "enter" = m := by simp [applyTab]
  have hgidx : goIdxNat m.repos line.repoIdx =
      Except.ok (m.repos.get ⟨line.repoIdx, hri⟩) := by
    unfold goIdxNat
    rw [hrp]
  have hnb : navBlock m "enter" =
      Except.ok (Flow.cont
        { m with
          repos := toggleCollapse m.repos line.repoIdx,
          displayLines := buildDisplayLines (toggleCollapse m.repos line.repoIdx),
          cursor :=
            if ((buildDisplayLines (toggleCollapse m.repos line.repoIdx)).length : Int) ≤
                m.cursor then
              ((buildDisplayLines (toggleCollapse m.repos line.repoIdx)).length : Int) - 1
            else m.cursor }) := by
    unfold navBlock
    rw [if_pos ⟨hload, hproc, hlen0, hpanel⟩]
    rw [if_neg (by decide : ¬(("enter" : String) = "up" ∨ ("enter" : String) = "k"))]
    rw [if_neg (by decide : ¬(("enter" : String) = "down" ∨ ("enter" : String) = "j"))]
    rw [if_pos (show ("enter" : String) = "enter" from rfl)]
    rw [hline, except_ok_bind, if_pos hhdr, hgidx, except_ok_bind]
  have hsb : ∀ m2 : Model, m2.activePanel = 0 → scrollBlock m2 "enter" = m2 := by
    intro m2 h2
    unfold scrollBlock
    rw [if_neg (by simp [h2])]
  have hhk : handleKey m "enter" =
      Except.ok (Flow.cont
        { m with
          repos := toggleCollapse m.repos line.repoIdx,
          displayLines := buildDisplayLines (toggleCollapse m.repos line.repoIdx),
          cursor :=
            if ((buildDisplayLines (toggleCollapse m.repos line.repoIdx)).length : Int) ≤
                m.cursor then
              ((buildDisplayLines (toggleCollapse m.repos line.repoIdx)).length : Int) - 1
            else m.cursor }) := by
    unfold handleKey
    rw [if_neg (by decide : ¬(("enter" : String) = "q" ∨ ("enter" : String) = "ctrl+c"))]
    show (navBlock (applyTab m "enter") "enter" >>= _) = _
    rw [happly, hnb, except_ok_bind]
    exact congrArg (Except.ok ∘ Flow.cont) (hsb _ hpanel)
  cases hg : m.embeddedTUI with
  | none =>
    simp only [update, hg, updateMain, hhk, except_ok_bind]
  | some g =>
    simp only [update, hg, if_neg hp2, updateMain, hhk, except_ok_bind]

/-- C7 (amended): the rebuild triggered by toggling a repository's
collapse clamps the cursor to a valid index of the new projection. -/
theorem toggleCollapse_clamps_cursor (env : Env) (m : Model) (line : DisplayLine)
    (hload : m.loading = false) (hproc : m.processing = false)
    (hpanel : m.activePanel = 0)
    (hline : goIdxInt m.displayLines m.cursor = Except.ok line)
    (hhdr : line.isHeader = true) (hri : line.repoIdx < m.repos.length) :
    ∃ r, update env m (Msg.key "enter") = Except.ok r ∧
      0 ≤ r.model.cursor ∧ r.model.cursor < (r.model.displayLines.length : Int) := by
  have hup := update_enter_header env m line hload hproc hpanel hline hhdr hri
  have hcne : ¬ m.cursor < 0 := by
    intro hneg
    rw [goIdxInt, if_pos hneg] at hline
    simp at hline
  refine ⟨_, hup, ?_⟩
  obtain ⟨hc, hd⟩ := propagate_model_cursor env _ (Msg.key "enter")
  rw [hc, hd]
  have h1 : 0 < m.repos.length := lt_of_le_of_lt (Nat.zero_le _) hri
  have h2 : (toggleCollapse m.repos line.repoIdx).length = m.repos.length :=
    toggleCollapse_length m.repos line.repoIdx
  have h3 := length_buildDisplayLines (toggleCollapse m.repos line.repoIdx)
  by_cases hclamp :
      ((buildDisplayLines (toggleCollapse m.repos line.repoIdx)).length : Int) ≤ m.cursor <;>
    simp only [hclamp, if_pos, if_neg, if_true, if_false] <;> constructor <;> omega

/-- C7 counterexample: the rebuild triggered by a catalog load does not
clamp the cursor — loading a one-line catalog while the cursor is `5`
leaves the cursor at `5`, past the end of the new one-line projection. -/
theorem filesLoaded_noClamp_counterexample :
    (update cexEnv { cursor := 5, loading := true }
        (Msg.filesLoaded [⟨"R", "u", [], false⟩] none)).map
      (fun r => (r.model.cursor, r.model.displayLines.length)) =
      Except.ok ((5 : Int), 1) ∧ ¬((5 : Int) < (1 : Int)) :=
  ⟨rfl, by decide⟩

/-- Witness for C7's amended theorem at a concrete one-repository
catalog with the cursor on the header. -/
theorem toggleCollapse_clamps_cursor_witness :
    ∃ r, update cexEnv
        { repos := [⟨"R", "u", [⟨"a", "file", "d"⟩], false⟩],
          displayLines := buildDisplayLines [⟨"R", "u", [⟨"a", "file", "d"⟩], false⟩] }
        (Msg.key "enter") = Except.ok r ∧
      0 ≤ r.model.cursor ∧ r.model.cursor < (r.model.displayLines.length : Int) :=
  toggleCollapse_clamps_cursor cexEnv
    { repos := [⟨"R", "u", [⟨"a", "file", "d"⟩], false⟩],
      displayLines := buildDisplayLines [⟨"R", "u", [⟨"a", "file", "d"⟩], false⟩] }
    { isRepo := true, repoIdx := 0, fileIdx := -1, text := "R", isHeader := true }
    rfl rfl rfl rfl rfl (by decide)

/-! ### C8: selection keys versus the current catalog model -/

/-- The claim's validity notion for a canonical selection key: the pair
(repository index, file index) denotes an existing entry of the catalog. -/
def keyRefsValidB (repos : List Repository) (ri fi : Nat) : Bool :=
  match repos[ri]? with
  | some repo => decide (fi < repo.files.length)
  | none => false

theorem mem_fileLines (ri : Nat) (fs : List GitHubFile) (j : Nat) (line : DisplayLine)
    (h : line ∈ fileLines ri j fs) :
    line.isHeader = false ∧ line.repoIdx = ri ∧
      ∃ d : Nat, d < fs.length ∧ line.fileIdx = ((j + d : Nat) : Int) := by
  induction fs generalizing j with
  | nil => simp [fileLines] at h
  | cons f fs' ih =>
    simp only [fileLines, List.mem_cons] at h
    rcases h with h | h
    · subst h
      exact ⟨rfl, rfl, 0, by simp, by simp⟩
    · obtain ⟨h1, h2, d, hd, hidx⟩ := ih (j + 1) h
      refine ⟨h1, h2, d + 1, by simp only [List.length_cons]; omega, ?_⟩
      rw [hidx]
      omega

theorem mem_buildLinesFrom (rs : List Repository) (i : Nat) (line : DisplayLine)
    (h : line ∈ buildLinesFrom i rs) (hh : line.isHeader = false) :
    ∃ j repo, rs[j]? = some repo ∧ line.repoIdx = i + j ∧
      ∃ fi : Nat, line.fileIdx = (fi : Int) ∧ fi < repo.files.length := by
  induction rs generalizing i with
  | nil => simp [buildLinesFrom] at h
  | cons r rest ih =>
    simp only [buildLinesFrom, List.mem_append] at h
    rcases h with h | h
    · simp only [repoLines, List.mem_cons] at h
      rcases h with h | h
      · subst h; simp at hh
      · by_cases hcol : r.collapsed
        · rw [if_pos hcol] at h; simp at h
        · rw [if_neg hcol] at h
          obtain ⟨h1, h2, d, hd, hidx⟩ := mem_fileLines i r.files 0 line h
          refine ⟨0, r, by simp, by omega, d, by simpa using hidx, hd⟩
    · obtain ⟨j, repo, hj, hr, fi, hfi, hflen⟩ := ih (i + 1) h
      refine ⟨j + 1, repo, by simpa using hj, by omega, fi, hfi, hflen⟩

theorem mem_buildDisplayLines_valid (repos : List Repository) (line : DisplayLine)
    (h : line ∈ buildDisplayLines repos) (hh : line.isHeader = false) :
    ∃ fi : Nat, line.fileIdx = (fi : Int) ∧ keyRefsValidB repos line.repoIdx fi = true := by
  obtain ⟨j, repo, hj, hr, fi, hfi, hflen⟩ := mem_buildLinesFrom repos 0 line h hh
  refine ⟨fi, hfi, ?_⟩
  have hr0 : line.repoIdx = j := by omega
  rw [hr0]
  unfold keyRefsValidB
  rw [hj]
  simpa using hflen

theorem goIdxInt_mem {α : Type} (l : List α) (i : Int) (x : α)
    (h : goIdxInt l i = Except.ok x) : x ∈ l := by
  unfold goIdxInt at h
  split at h
  · simp at h
  · unfold goIdxNat at h
    cases hq : l[i.toNat]? with
    | none => rw [hq] at h; simp at h
    | some y =>
      rw [hq] at h
      simp only [Except.ok.injEq] at h
      obtain ⟨hlt, heq⟩ := List.getElem?_eq_some.mp hq
      rw [← h]
      exact heq ▸ List.getElem_mem hlt

theorem propagate_selected (env : Env) (m : Model) (msg : Msg) :
    (propagate env m msg).model.selected = m.selected := by
  cases hg : m.embeddedTUI <;> simp [propagate, hg]

theorem scrollBlock_selected (m : Model) (k : String) :
    (scrollBlock m k).selected = m.selected := by
  unfold scrollBlock
  split_ifs <;> simp

theorem handleFilesLoaded_selected (env : Env) (m : Model) (rs : List Repository)
    (e : Option String) : (handleFilesLoaded env m rs e).selected = m.selected := by
  cases e <;> simp [handleFilesLoaded]

theorem updateEmbeddedFocus_selected (env : Env) (m : Model) (g : Guest) (msg : Msg)
    (r : UpdRes) (h : updateEmbeddedFocus env m g msg = Except.ok r) :
    r.model.selected = m.selected := by
  cases msg <;> simp only [updateEmbeddedFocus] at h
  case str raw =>
    split at h
    · split at h
      · cases h; simp
      · cases h; simp
    · cases h; simp
  all_goals cases h <;> simp

theorem filesLoaded_keeps_selection (env : Env) (m : Model) (rs : List Repository)
    (e : Option String) (r : UpdRes)
    (h : update env m (Msg.filesLoaded rs e) = Except.ok r) :
    r.model.selected = m.selected := by
  cases hg : m.embeddedTUI with
  | none =>
    simp only [update, hg, updateMain, Except.ok.injEq] at h
    cases h
    rw [propagate_selected, handleFilesLoaded_selected]
  | some g =>
    by_cases hp : m.activePanel = 2
    · simp only [update, hg, if_pos hp] at h
      exact updateEmbeddedFocus_selected env m g _ r h
    · simp only [update, hg, if_neg hp, updateMain, Except.ok.injEq] at h
      cases h
      rw [propagate_selected, handleFilesLoaded_selected]

theorem spaceKey_selected_valid (env : Env) (m : Model) (r : UpdRes)
    (hdl : m.displayLines = buildDisplayLines m.repos)
    (h : update env m (Msg.key " ") = Except.ok r) :
    ∀ k ∈ r.model.selected, k ∈ m.selected ∨
      ∃ ri fi : Nat, k = toString ri ++ ":" ++ toString ((fi : Nat) : Int) ∧
        keyRefsValidB m.repos ri fi = true := by
  have hmain : updateMain env m (Msg.key " ") = Except.ok r →
      ∀ k ∈ r.model.selected, k ∈ m.selected ∨
        ∃ ri fi : Nat, k = toString ri ++ ":" ++ toString ((fi : Nat) : Int) ∧
          keyRefsValidB m.repos ri fi = true := by
    intro h
    simp only [updateMain] at h
    rw [except_bind_ok] at h
    obtain ⟨fl, hfl, h⟩ := h
    simp only [handleKey,
      if_neg (by decide : ¬(((" " : String)) = "q" ∨ ((" " : String)) = "ctrl+c"))] at hfl
    rw [show applyTab m " " = m from by simp [applyTab]] at hfl
    rw [except_bind_ok] at hfl
    obtain ⟨fl2, hfl2, hfl⟩ := hfl
    have hnav2 : ∃ m2 : Model, fl2 = Flow.cont m2 ∧
        ((∀ x ∈ m2.selected, x ∈ m.selected) ∨
          (∃ line : DisplayLine, line ∈ m.displayLines ∧ line.isHeader = false ∧
            m2.selected = m.selected ++
              [toString line.repoIdx ++ ":" ++ toString line.fileIdx])) := by
      unfold navBlock at hfl2
      split at hfl2
      · rw [if_neg (by decide : ¬((" " : String) = "up" ∨ (" " : String) = "k"))] at hfl2
        rw [if_neg (by decide : ¬((" " : String) = "down" ∨ (" " : String) = "j"))] at hfl2
        rw [if_neg (by decide : ¬((" " : String) = "enter"))] at hfl2
        rw [if_pos (show ((" " : String)) = " " from rfl)] at hfl2
        rw [except_bind_ok] at hfl2
        obtain ⟨line, hline, hfl2⟩ := hfl2
        by_cases hhdr : line.isHeader = true
        · rw [if_pos hhdr] at hfl2
          simp only [Except.ok.injEq] at hfl2
          exact ⟨m, hfl2.symm, Or.inl fun x hx => hx⟩
        · rw [if_neg hhdr] at hfl2
          by_cases hmem :
              toString line.repoIdx ++ ":" ++ toString line.fileIdx ∈ m.selected
          · rw [if_pos hmem] at hfl2
            simp only [Except.ok.injEq] at hfl2
            refine ⟨_, hfl2.symm, Or.inl ?_⟩
            intro x hx
            simp only [List.mem_filter] at hx
            exact hx.1
          · rw [if_neg hmem] at hfl2
            simp only [Except.ok.injEq] at hfl2
            exact ⟨_, hfl2.symm,
              Or.inr ⟨line, goIdxInt_mem _ _ _ hline, by simpa using hhdr, rfl⟩⟩
      · simp only [Except.ok.injEq] at hfl2
        exact ⟨m, hfl2.symm, Or.inl fun x hx => hx⟩
    obtain ⟨m2, hfl2eq, hdisj⟩ := hnav2
    subst hfl2eq
    simp only [Except.ok.injEq] at hfl
    rw [← hfl] at h
    simp only [Except.ok.injEq] at h
    rcases hdisj with hsub | ⟨line, hlmem, hlh, hsel⟩
    · intro k hk
      rw [← h, propagate_selected, scrollBlock_selected] at hk
      exact Or.inl (hsub k hk)
    · intro k hk
      rw [← h, propagate_selected, scrollBlock_selected, hsel] at hk
      rcases List.mem_append.mp hk with hk | hk
      · exact Or.inl hk
      · right
        obtain ⟨fi, hfi, hvalid⟩ :=
          mem_buildDisplayLines_valid m.repos line (hdl ▸ hlmem) hlh
        exact ⟨line.repoIdx, fi, by simpa [hfi] using List.mem_singleton.mp hk, hvalid⟩
  cases hg : m.embeddedTUI with
  | none =>
    simp only [update, hg] at h
    exact hmain h
  | some g =>
    by_cases hp : m.activePanel = 2
    · simp only [update, hg, if_pos hp] at h
      intro k hk
      left
      rw [updateEmbeddedFocus_selected env m g _ r h] at hk
      exact hk
    · simp only [update, hg, if_neg hp] at h
      exact hmain h

/-- C8 counterexample: reloading the catalog with a model in which entry
`(0, 1)` no longer exists leaves the stale key `0:1` in the Selection
Set — the reload purges nothing, refuting "entries removed from the model
must also be purged from the selection". -/
theorem filesLoaded_noPurge_counterexample :
    (update cexEnv
        { repos := [⟨"R", "u", [⟨"a", "file", "d"⟩, ⟨"b", "file", "d"⟩], false⟩],
          selected := ["0:1"] }
        (Msg.filesLoaded [⟨"R", "u", [⟨"a", "file", "d"⟩], false⟩] none)).map
      (fun r => (r.model.selected, keyRefsValidB r.model.repos 0 1)) =
      Except.ok (["0:1"], false) := rfl

/-- C8 (amended): a catalog (re)load leaves the Selection Set unchanged
(no purge occurs, so keys whose entries vanished persist), and every key
the catalog-panel selection handler inserts refers to an entry that is
valid under the current Catalog Model (when the stored projection is the
model's current projection). -/
theorem selection_reload_and_insert_spec :
    (∀ (env : Env) (m : Model) (rs : List Repository) (e : Option String) (r : UpdRes),
      update env m (Msg.filesLoaded rs e) = Except.ok r →
        r.model.selected = m.selected) ∧
    (∀ (env : Env) (m : Model) (r : UpdRes),
      m.displayLines = buildDisplayLines m.repos →
      update env m (Msg.key " ") = Except.ok r →
        ∀ k ∈ r.model.selected, k ∈ m.selected ∨
          ∃ ri fi : Nat, k = toString ri ++ ":" ++ toString ((fi : Nat) : Int) ∧
            keyRefsValidB m.repos ri fi = true) :=
  ⟨filesLoaded_keeps_selection, spaceKey_selected_valid⟩

/-- Witness for C8's amended theorem: a concrete reload keeps the
selection intact. -/
theorem selection_reload_and_insert_spec_witness :
    (update cexEnv ({ selected := ["9:9"] } : Model)
        (Msg.filesLoaded [] none)).map (fun r => r.model.selected) =
      Except.ok ["9:9"] := by
  obtain ⟨r, hr⟩ : ∃ r, update cexEnv ({ selected := ["9:9"] } : Model)
      (Msg.filesLoaded [] none) = Except.ok r := ⟨_, rfl⟩
  rw [hr, Except.map]
  exact congrArg Except.ok
    (selection_reload_and_insert_spec.1 cexEnv { selected := ["9:9"] } [] none r hr)

/-! ### C3: bookkeeping after a batch completes -/

/-- Folding a list of events through `Update`, keeping the model. -/
def runMsgs (env : Env) : Model → List Msg → Except String Model
  | m, [] => Except.ok m
  | m, msg :: rest => do
    let r ← update env m msg
    runMsgs env r.model rest

/-- The host itself processes events (no focused embedded session
intercepts them): the state every batch is dispatched from, and which
completion processing preserves. -/
def hostSide (m : Model) : Prop := m.embeddedTUI = none ∨ m.activePanel ≠ 2

/-- The completion event of one batch action, described by
(entry name, fetched?, optional error). -/
def opMsg : String × Bool × Option String → Msg
  | (n, dl, e) => Msg.operationComplete n (if dl then "download" else "delete") e

/-- The Local Inventory effect of one completion: set on successful
fetch, delete on successful remove, nothing on error. -/
def applyResult (lf : List (String × Bool)) : String × Bool × Option String →
    List (String × Bool)
  | (n, dl, none) => if dl then mapSet lf n true else mapDel lf n
  | (_, _, some _) => lf

theorem handleOpComplete_fields (env : Env) (m : Model) (fn op : String)
    (e : Option String) :
    (handleOperationComplete env m fn op e).selected = m.selected ∧
    (handleOperationComplete env m fn op e).processing = m.processing ∧
    (handleOperationComplete env m fn op e).activePanel = m.activePanel ∧
    ((handleOperationComplete env m fn op e).embeddedTUI = m.embeddedTUI ∨
      (handleOperationComplete env m fn op e).embeddedTUI = none) ∧
    (handleOperationComplete env m fn op e).localFiles =
      (match e with
      | some _ => m.localFiles
      | none =>
        if op = "download" then mapSet m.localFiles fn true else mapDel m.localFiles fn) := by
  cases e with
  | some err => simp [handleOperationComplete]
  | none =>
    by_cases hop : op = "download"
    · cases ha : env.addAliasErr fn <;> simp [handleOperationComplete, hop, ha]
    · cases ha : env.removeAliasErr fn <;> by_cases hrt : m.runningTUI = fn <;>
        simp [handleOperationComplete, hop, ha, hrt]

theorem propagate_fields (env : Env) (m : Model) (msg : Msg) :
    (propagate env m msg).model.selected = m.selected ∧
    (propagate env m msg).model.processing = m.processing ∧
    (propagate env m msg).model.activePanel = m.activePanel ∧
    (propagate env m msg).model.localFiles = m.localFiles ∧
    ((propagate env m msg).model.embeddedTUI = none ↔ m.embeddedTUI = none) := by
  cases hg : m.embeddedTUI <;> simp [propagate, hg]

theorem update_opComplete_step (env : Env) (m : Model) (fn op : String)
    (e : Option String) (h : hostSide m) :
    ∃ r, update env m (Msg.operationComplete fn op e) = Except.ok r ∧
      r.model.selected = m.selected ∧ r.model.processing = m.processing ∧
      r.model.activePanel = m.activePanel ∧ hostSide r.model ∧
      r.model.localFiles =
        (match e with
        | some _ => m.localFiles
        | none =>
          if op = "download" then mapSet m.localFiles fn true
          else mapDel m.localFiles fn) := by
  have hkey : update env m (Msg.operationComplete fn op e) =
      Except.ok (propagate env (handleOperationComplete env m fn op e)
        (Msg.operationComplete fn op e)) := by
    cases hg : m.embeddedTUI with
    | none => simp [update, hg, updateMain]
    | some g =>
      have hp : ¬ m.activePanel = 2 := by
        rcases h with h1 | h2
        · rw [hg] at h1; exact absurd h1 (by simp)
        · exact h2
      simp [update, hg, if_neg hp, updateMain]
  refine ⟨_, hkey, ?_⟩
  obtain ⟨hs, hp, ha, hl, hg⟩ :=
    propagate_fields env (handleOperationComplete env m fn op e)
      (Msg.operationComplete fn op e)
  obtain ⟨hs2, hp2, ha2, hg2, hl2⟩ := handleOpComplete_fields env m fn op e
  rw [hs, hp, ha, hl, hs2, hp2, ha2, hl2]
  refine ⟨rfl, rfl, rfl, ?_, rfl⟩
  rcases h with h1 | h2
  · left
    apply hg.mpr
    rcases hg2 with hg2 | hg2
    · rw [hg2, h1]
    · exact hg2
  · right
    rw [ha, ha2]
    exact h2

theorem runMsgs_append (env : Env) (m : Model) (l1 l2 : List Msg) :
    runMsgs env m (l1 ++ l2) =
      (runMsgs env m l1) >>= fun m' => runMsgs env m' l2 := by
  induction l1 generalizing m with
  | nil => simp [runMsgs, except_ok_bind]
  | cons msg rest ih =>
    simp only [List.cons_append, runMsgs]
    cases hu : update env m msg with
    | error e => simp [Bind.bind, Except.bind]
    | ok r =>
      rw [except_ok_bind, except_ok_bind]
      exact ih r.model

theorem runCompletions (env : Env) (results : List (String × Bool × Option String)) :
    ∀ m : Model, hostSide m →
      ∃ mf, runMsgs env m (results.map opMsg) = Except.ok mf ∧
        mf.selected = m.selected ∧ mf.processing = m.processing ∧ hostSide mf ∧
        mf.localFiles = results.foldl applyResult m.localFiles := by
  induction results with
  | nil => exact fun m hm => ⟨m, rfl, rfl, rfl, hm, rfl⟩
  | cons x rest ih =>
    intro m hm
    obtain ⟨n, dl, e⟩ := x
    obtain ⟨r, hr, hs, hp, ha, hhost, hl⟩ :=
      update_opComplete_step env m n (if dl then "download" else "delete") e hm
    obtain ⟨mf, hmf, hs2, hp2, hhost2, hl2⟩ := ih r.model hhost
    refine ⟨mf, ?_, by rw [hs2, hs], by rw [hp2, hp], hhost2, ?_⟩
    · simp only [List.map_cons, runMsgs, opMsg]
      rw [hr, except_ok_bind]
      exact hmf
    · rw [hl2, hl]
      cases e <;> cases dl <;> simp [applyResult, List.foldl_cons]

theorem applyResult_get_other (lf : List (String × Bool))
    (x : String × Bool × Option String) (n : String) (hne : x.1 ≠ n) :
    mapGet (applyResult lf x) n = mapGet lf n := by
  obtain ⟨a, dl, e⟩ := x
  replace hne : a ≠ n := hne
  cases e <;> cases dl <;>
    simp [applyResult, mapGet_mapSet_other _ _ _ _ hne, mapGet_mapDel_other _ _ _ hne]

theorem foldl_applyResult_notmem :
    ∀ (results : List (String × Bool × Option String)) (lf : List (String × Bool))
      (n : String), n ∉ results.map (fun x => x.1) →
      mapGet (results.foldl applyResult lf) n = mapGet lf n := by
  intro results
  induction results with
  | nil => intro lf n _; rfl
  | cons x rest ih =>
    intro lf n h
    simp only [List.map_cons, List.mem_cons] at h
    push_neg at h
    simp only [List.foldl_cons]
    rw [ih _ n h.2, applyResult_get_other _ _ _ (Ne.symm h.1)]

theorem foldl_applyResult_success :
    ∀ (results : List (String × Bool × Option String)) (lf : List (String × Bool))
      (n : String) (dl : Bool), (n, dl, (none : Option String)) ∈ results →
      (results.map (fun x => x.1)).Nodup →
      mapGet (results.foldl applyResult lf) n = dl := by
  intro results
  induction results with
  | nil => intro lf n dl hmem _; simp at hmem
  | cons x rest ih =>
    intro lf n dl hmem hnd
    simp only [List.map_cons, List.nodup_cons] at hnd
    simp only [List.mem_cons] at hmem
    rcases hmem with hmem | hmem
    · subst hmem
      simp only [List.foldl_cons]
      rw [foldl_applyResult_notmem rest _ n hnd.1]
      cases dl <;> simp [applyResult, mapGet_mapSet_self, mapGet_mapDel_self]
    · have hn : n ∈ rest.map (fun x => x.1) :=
        List.mem_map.mpr ⟨(n, dl, none), hmem, rfl⟩
      simp only [List.foldl_cons]
      exact ih (applyResult lf x) n dl hmem hnd.2

theorem foldl_applyResult_err :
    ∀ (results : List (String × Bool × Option String)) (lf : List (String × Bool))
      (n : String) (dl : Bool) (err : String), (n, dl, some err) ∈ results →
      (results.map (fun x => x.1)).Nodup →
      mapGet (results.foldl applyResult lf) n = mapGet lf n := by
  intro results
  induction results with
  | nil => intro lf n dl err hmem _; simp at hmem
  | cons x rest ih =>
    intro lf n dl err hmem hnd
    simp only [List.map_cons, List.nodup_cons] at hnd
    simp only [List.mem_cons] at hmem
    rcases hmem with hmem | hmem
    · subst hmem
      simp only [List.foldl_cons]
      rw [foldl_applyResult_notmem rest _ n hnd.1]
      simp [applyResult]
    · have hn : n ∈ rest.map (fun x => x.1) :=
        List.mem_map.mpr ⟨(n, dl, some err), hmem, rfl⟩
      have hne : x.1 ≠ n := fun he => hnd.1 (he ▸ hn)
      simp only [List.foldl_cons]
      rw [ih (applyResult lf x) n dl err hmem hnd.2, applyResult_get_other _ _ _ hne]

/-- C3: After a batch's N per-entry completion events (distinct entry
names, each a fetch or remove with optional error) followed by the
terminal event have been processed, the Selection Set is empty, the
processing flag is false, and Local Inventory was updated exactly for the
entries whose completion reported success (true on fetch, false on
remove); completions carrying errors leave their entries unchanged, as do
names outside the batch, and no completion prevents its siblings from
being processed. -/
theorem batch_completion_bookkeeping (env : Env) (m : Model)
    (results : List (String × Bool × Option String))
    (hhost : hostSide m) (hnd : (results.map (fun x => x.1)).Nodup) :
    ∃ mf, runMsgs env m (results.map opMsg ++ [Msg.allOperationsComplete]) =
        Except.ok mf ∧
      mf.selected = [] ∧ mf.processing = false ∧
      (∀ x ∈ results, x.2.2 = none → mapGet mf.localFiles x.1 = x.2.1) ∧
      (∀ x ∈ results, x.2.2 ≠ none → mapGet mf.localFiles x.1 = mapGet m.localFiles x.1) ∧
      (∀ n, n ∉ results.map (fun x => x.1) →
        mapGet mf.localFiles n = mapGet m.localFiles n) := by
  obtain ⟨m1, h1, hs, hp, hhost1, hl⟩ := runCompletions env results m hhost
  have hterm : ∃ r, update env m1 Msg.allOperationsComplete = Except.ok r ∧
      r.model.selected = [] ∧ r.model.processing = false ∧
      r.model.localFiles = m1.localFiles := by
    have hu : update env m1 Msg.allOperationsComplete =
        Except.ok ⟨{ m1 with
          processing := false, selected := [],
          statusMsg := "✅ Toutes les opérations terminées!",
          logs := m1.logs ++ ["✅ Toutes les opérations terminées!"] },
          some Cmd.tick3s, []⟩ := by
      cases hg : m1.embeddedTUI with
      | none => simp [update, hg, updateMain]
      | some g =>
        have hp2 : ¬ m1.activePanel = 2 := by
          rcases hhost1 with hx | hx
          · rw [hg] at hx; exact absurd hx (by simp)
          · exact hx
        simp [update, hg, if_neg hp2, updateMain]
    exact ⟨_, hu, by simp, by simp, by simp⟩
  obtain ⟨r, hr, hrs, hrp, hrl⟩ := hterm
  refine ⟨r.model, ?_, hrs, hrp, ?_, ?_, ?_⟩
  · rw [runMsgs_append, h1, except_ok_bind]
    show runMsgs env m1 [Msg.allOperationsComplete] = Except.ok r.model
    simp only [runMsgs]
    rw [hr, except_ok_bind]
  · intro x hx he
    obtain ⟨n, dl, e⟩ := x
    simp only at he
    subst he
    rw [hrl, hl]
    exact foldl_applyResult_success results m.localFiles n dl hx hnd
  · intro x hx he
    obtain ⟨n, dl, e⟩ := x
    simp only at he
    obtain ⟨err, rfl⟩ := Option.ne_none_iff_exists'.mp he
    rw [hrl, hl]
    exact foldl_applyResult_err results m.localFiles n dl err hx hnd
  · intro n hn
    rw [hrl, hl]
    exact foldl_applyResult_notmem results m.localFiles n hn

/-- Witness for C3 at a concrete two-entry batch (one successful fetch,
one failed remove). -/
theorem batch_completion_bookkeeping_witness :
    ∃ mf, runMsgs cexEnv ({} : Model)
        (([("a", true, none), ("b", false, some "boom")] :
            List (String × Bool × Option String)).map opMsg ++
          [Msg.allOperationsComplete]) = Except.ok mf ∧
      mf.selected = [] ∧ mf.processing = false ∧
      (∀ x ∈ ([("a", true, none), ("b", false, some "boom")] :
          List (String × Bool × Option String)), x.2.2 = none →
        mapGet mf.localFiles x.1 = x.2.1) ∧
      (∀ x ∈ ([("a", true, none), ("b", false, some "boom")] :
          List (String × Bool × Option String)), x.2.2 ≠ none →
        mapGet mf.localFiles x.1 = mapGet ({} : Model).localFiles x.1) ∧
      (∀ n, n ∉ (([("a", true, none), ("b", false, some "boom")] :
          List (String × Bool × Option String)).map (fun x => x.1)) →
        mapGet mf.localFiles n = mapGet ({} : Model).localFiles n) :=
  batch_completion_bookkeeping cexEnv {}
    [("a", true, none), ("b", false, some "boom")] (Or.inl rfl) (by decide)

/-! ### C4 and C10: batch dispatch over the Selection Set -/

/-- Both fields of a selection key scan as non-negative integers (true of
every key the selection handler creates); keys that do not split into two
fields are unconstrained, the loop skips them before scanning. -/
def keyFieldsNonneg (k : String) : Bool :=
  match goSplit ':' k with
  | [p0, p1] => decide (0 ≤ goScanInt p0) && decide (0 ≤ goScanInt p1)
  | _ => true

/-- The total resolution of one selection key, mirroring the loop body of
`processSelectedFiles` on keys whose scanned indices are non-negative:
`none` when the key does not split in two or is out of range, otherwise
the classified action. -/
def resolveKeyPure (m : Model) (k : String) : Option Cmd :=
  match goSplit ':' k with
  | [p0, p1] =>
    let ri := goScanInt p0
    let fi := goScanInt p1
    if ri < 0 ∨ (m.repos.length : Int) ≤ ri then none
    else
      match m.repos[ri.toNat]? with
      | none => none
      | some repo =>
        if fi < 0 ∨ (repo.files.length : Int) ≤ fi then none
        else
          match repo.files[fi.toNat]? with
          | none => none
          | some file =>
            some (if mapGet m.localFiles file.name then Cmd.deleteFileCmd file.name
              else Cmd.downloadFileCmd file)
  | _ => none

theorem goIdxInt_pos_eq {α : Type} (l : List α) (i : Int) (h0 : ¬ i < 0)
    (hlt : i.toNat < l.length) : goIdxInt l i = Except.ok l[i.toNat] := by
  rw [goIdxInt, if_neg h0, goIdxNat, List.getElem?_eq_getElem hlt]

theorem resolveKey_eq_pure (m : Model) (k : String) (h : keyFieldsNonneg k = true) :
    resolveKey m k = Except.ok (resolveKeyPure m k) := by
  unfold keyFieldsNonneg at h
  unfold resolveKey resolveKeyPure
  cases hgs : goSplit ':' k with
  | nil => rfl
  | cons p0 rest =>
    cases rest with
    | nil => rfl
    | cons p1 rest2 =>
      cases rest2 with
      | cons q qs => rfl
      | nil =>
        rw [hgs] at h
        simp only [Bool.and_eq_true, decide_eq_true_eq] at h
        obtain ⟨hp0, hp1⟩ := h
        simp only []
        by_cases h1 : (m.repos.length : Int) ≤ goScanInt p0
        · rw [if_pos h1, if_pos (Or.inr h1)]
        · rw [if_neg h1, if_neg (by omega : ¬(goScanInt p0 < 0 ∨
            (m.repos.length : Int) ≤ goScanInt p0))]
          have hlt0 : (goScanInt p0).toNat < m.repos.length := by omega
          rw [goIdxInt_pos_eq m.repos _ (by omega) hlt0, except_ok_bind,
            List.getElem?_eq_getElem hlt0]
          simp only []
          by_cases h2 : ((m.repos[(goScanInt p0).toNat]).files.length : Int) ≤ goScanInt p1
          · rw [if_pos h2, if_pos (Or.inr h2)]
          · rw [if_neg h2, if_neg (by omega : ¬(goScanInt p1 < 0 ∨
              ((m.repos[(goScanInt p0).toNat]).files.length : Int) ≤ goScanInt p1))]
            have hlt1 : (goScanInt p1).toNat <
                (m.repos[(goScanInt p0).toNat]).files.length := by omega
            rw [goIdxInt_pos_eq _ _ (by omega) hlt1, except_ok_bind,
              List.getElem?_eq_getElem hlt1]

theorem collectOps_eq_filterMap (m : Model) :
    ∀ ks : List String, (∀ k ∈ ks, keyFieldsNonneg k = true) →
      collectOps m ks = Except.ok (ks.filterMap (resolveKeyPure m)) := by
  intro ks
  induction ks with
  | nil => intro _; rfl
  | cons k rest ih =>
    intro h
    have hk := h k (List.mem_cons_self k rest)
    have hrest := fun x hx => h x (List.mem_cons_of_mem k hx)
    simp only [collectOps]
    rw [resolveKey_eq_pure m k hk, except_ok_bind, ih hrest, except_ok_bind]
    cases hr : resolveKeyPure m k <;> simp [List.filterMap_cons, hr]

theorem resolveKeyPure_shape (m : Model) (k : String) (c : Cmd)
    (h : resolveKeyPure m k = some c) :
    (∃ n, c = Cmd.deleteFileCmd n) ∨ (∃ f, c = Cmd.downloadFileCmd f) := by
  unfold resolveKeyPure at h
  rcases hgs : goSplit ':' k with _ | ⟨p0, _ | ⟨p1, _ | ⟨q, qs⟩⟩⟩ <;> rw [hgs] at h
  case cons.cons.nil =>
    simp only [] at h
    split at h
    · simp at h
    · split at h
      · simp at h
      · split at h
        · simp at h
        · split at h
          · simp at h
          · simp only [Option.some.injEq] at h
            subst h
            split
            · exact Or.inl ⟨_, rfl⟩
            · exact Or.inr ⟨_, rfl⟩
  all_goals simp at h

/-- C4 counterexample: a selection key whose first field scans to the
negative integer `-1` passes the upper-bound test and the dispatcher
panics at the slice read — it produces neither per-entry actions nor the
terminal event action, refuting the claim for arbitrary states. -/
theorem processSelectedFiles_negativeKey_counterexample :
    processSelectedFiles
        { repos := [⟨"R", "u", [⟨"f", "file", "d"⟩], false⟩], selected := ["-1:0"] } =
      Except.error "runtime error: index out of range" := rfl

/-- C4 (amended): provided every selected key's two fields scan as
non-negative integers (true of every key the selection handler creates)
and keys are distinct (map semantics), batch dispatch produces exactly
one asynchronous action per key that resolves to a valid
(repository index, file index) pair — a remove action when the entry's
name is in Local Inventory, a fetch action otherwise — plus exactly one
terminal event action, and no per-entry action is a terminal action. -/
theorem processSelectedFiles_dispatch_spec (m : Model)
    (h : ∀ k ∈ m.selected, keyFieldsNonneg k = true) (hnd : m.selected.Nodup) :
    processSelectedFiles m =
      Except.ok (Cmd.batch (m.selected.filterMap (resolveKeyPure m) ++
        [Cmd.emitAllOpsComplete])) ∧
    ∀ c ∈ m.selected.filterMap (resolveKeyPure m), c ≠ Cmd.emitAllOpsComplete := by
  constructor
  · simp only [processSelectedFiles]
    rw [collectOps_eq_filterMap m m.selected h, except_ok_bind]
  · intro c hc
    obtain ⟨k, hk, hres⟩ := List.mem_filterMap.mp hc
    rcases resolveKeyPure_shape m k c hres with ⟨n, rfl⟩ | ⟨f, rfl⟩ <;> simp

/-- Witness for C4's amended theorem: one in-range key over a present
file yields exactly the remove action plus the terminal action. -/
theorem processSelectedFiles_dispatch_spec_witness :
    processSelectedFiles
        ({ repos := [⟨"R", "u", [⟨"f", "file", "d"⟩], false⟩],
           selected := ["0:0", "5:5"],
           localFiles := [("f", true)] } : Model) =
      Except.ok (Cmd.batch
        ((["0:0", "5:5"].filterMap (resolveKeyPure
          { repos := [⟨"R", "u", [⟨"f", "file", "d"⟩], false⟩],
            selected := ["0:0", "5:5"],
            localFiles := [("f", true)] })) ++ [Cmd.emitAllOpsComplete])) ∧
    ∀ c ∈ (["0:0", "5:5"].filterMap (resolveKeyPure
        { repos := [⟨"R", "u", [⟨"f", "file", "d"⟩], false⟩],
          selected := ["0:0", "5:5"],
          localFiles := [("f", true)] })), c ≠ Cmd.emitAllOpsComplete :=
  processSelectedFiles_dispatch_spec
    { repos := [⟨"R", "u", [⟨"f", "file", "d"⟩], false⟩],
      selected := ["0:0", "5:5"],
      localFiles := [("f", true)] }
    (by intro k hk; fin_cases hk <;> rfl)
    (by decide)

/-- C10 counterexample: the key `abc:xyz` does not parse as
`repoIdx:fileIdx`, yet `Sscanf` leaves both variables at `0` and the
dispatcher emits a fetch action for entry `(0, 0)` — the stale key is not
skipped, refuting "without dispatching an action for it; only in-range
keys produce actions". -/
theorem processSelectedFiles_malformedKey_counterexample :
    processSelectedFiles
        { repos := [⟨"R", "u", [⟨"f", "file", "d"⟩], false⟩], selected := ["abc:xyz"] } =
      Except.ok (Cmd.batch
        [Cmd.downloadFileCmd ⟨"f", "file", "d"⟩, Cmd.emitAllOpsComplete]) := rfl

/-- C10 (amended): for every Selection Set whose keys' fields all scan as
non-negative integers and which are all stale (none resolves to an entry
of the current Catalog Model), batch dispatch skips every key without any
out-of-bounds access and dispatches only the terminal event action. -/
theorem processSelectedFiles_skips_stale (m : Model)
    (h : ∀ k ∈ m.selected, keyFieldsNonneg k = true)
    (hstale : ∀ k ∈ m.selected, resolveKeyPure m k = none) :
    processSelectedFiles m = Except.ok (Cmd.batch [Cmd.emitAllOpsComplete]) := by
  simp only [processSelectedFiles]
  rw [collectOps_eq_filterMap m m.selected h, except_ok_bind,
    List.filterMap_eq_nil.mpr hstale, List.nil_append]

/-- Witness for C10's amended theorem: two stale keys (repository index
out of range, file index out of range) dispatch only the terminal
action. -/
theorem processSelectedFiles_skips_stale_witness :
    processSelectedFiles
        ({ repos := [⟨"R", "u", [⟨"f", "file", "d"⟩], false⟩],
           selected := ["3:0", "0:9"] } : Model) =
      Except.ok (Cmd.batch [Cmd.emitAllOpsComplete]) :=
  processSelectedFiles_skips_stale
    { repos := [⟨"R", "u", [⟨"f", "file", "d"⟩], false⟩], selected := ["3:0", "0:9"] }
    (by intro k hk; fin_cases hk <;> rfl)
    (by intro k hk; fin_cases hk <;> rfl)

/-! ### C9: the fetch action (`downloadFile`) -/

/-- One stored file of the plugin directory: its content and its
permission bits. -/
structure StoredFile where
  content : String
  mode : Nat
deriving DecidableEq

/-- The plugin directory, keyed by file name. -/
def fsGet (fs : List (String × StoredFile)) (n : String) : Option StoredFile :=
  match fs with
  | [] => none
  | (a, f) :: rest => if a = n then some f else fsGet rest n

def fsSet (fs : List (String × StoredFile)) (n : String) (f : StoredFile) :
    List (String × StoredFile) :=
  match fs with
  | [] => [(n, f)]
  | (a, g) :: rest => if a = n then (a, f) :: rest else (a, g) :: fsSet rest n f

theorem fsGet_fsSet_self (fs : List (String × StoredFile)) (n : String) (f : StoredFile) :
    fsGet (fsSet fs n f) n = some f := by
  induction fs with
  | nil => simp [fsGet, fsSet]
  | cons hd tl ih =>
    obtain ⟨a, g⟩ := hd
    by_cases h : a = n <;> simp [fsGet, fsSet, h, ih]

/-- Go `os.Create`: truncate-create the file (mode `0666` before umask). -/
def osCreate (fs : List (String × StoredFile)) (n : String) : List (String × StoredFile) :=
  fsSet fs n ⟨"", 0o666⟩

/-- Go `io.Copy` of the whole response body into the open file. -/
def ioCopy (fs : List (String × StoredFile)) (n : String) (body : String) :
    List (String × StoredFile) :=
  match fsGet fs n with
  | some f => fsSet fs n ⟨f.content ++ body, f.mode⟩
  | none => fs

/-- Go `os.Chmod`. -/
def osChmod (fs : List (String × StoredFile)) (n : String) (mode : Nat) :
    List (String × StoredFile) :=
  match fsGet fs n with
  | some f => fsSet fs n ⟨f.content, mode⟩
  | none => fs

/-- The source's `downloadFile`, with the HTTP transport as an oracle
from locator to optional body: directories and entries without a download
locator fail; otherwise the body is fetched, written into the plugin
directory under the entry's name, and the stored file is chmodded to
`0644` (the source comment says "Rendre le fichier exécutable", make the
file executable). -/
def downloadFileRun (file : GitHubFile) (http : String → Option String)
    (fs : List (String × StoredFile)) : List (String × StoredFile) × Msg :=
  if file.type ≠ "file" ∨ file.downloadURL = "" then
    (fs, Msg.operationComplete file.name "download"
      (some "impossible de télécharger un dossier"))
  else
    match http file.downloadURL with
    | none => (fs, Msg.operationComplete file.name "download" (some "http request failed"))
    | some body =>
      let fs1 := osCreate fs file.name
      let fs2 := ioCopy fs1 file.name body
      let fs3 := osChmod fs2 file.name 0o644
      (fs3, Msg.operationComplete file.name "download" none)

/-- C9: a successful fetch of a file-kind entry with a non-empty download
locator writes the retrieved content into the plugin directory under the
entry's name — but the stored file's mode is `0644`, which has no execute
bit: the code does NOT mark the stored file executable, although its own
comment (and the claim) say it does. -/
theorem downloadFile_mode_not_executable (file : GitHubFile)
    (http : String → Option String) (fs : List (String × StoredFile)) (body : String)
    (ht : file.type = "file") (hu : file.downloadURL ≠ "")
    (hb : http file.downloadURL = some body) :
    ∃ fs', downloadFileRun file http fs =
        (fs', Msg.operationComplete file.name "download" none) ∧
      fsGet fs' file.name = some ⟨body, 0o644⟩ ∧ Nat.land 0o644 0o111 = 0 := by
  have hcond : ¬(file.type ≠ "file" ∨ file.downloadURL = "") := by
    push_neg
    exact ⟨ht, hu⟩
  refine ⟨osChmod (ioCopy (osCreate fs file.name) file.name body) file.name 0o644,
    ?_, ?_, by decide⟩
  · rw [downloadFileRun, if_neg hcond, hb]
  · show fsGet (osChmod (ioCopy (osCreate fs file.name) file.name body)
      file.name 0o644) file.name = some ⟨body, 0o644⟩
    rw [ioCopy, osCreate, fsGet_fsSet_self]
    show fsGet (osChmod (fsSet (fsSet fs file.name ⟨"", 0o666⟩) file.name
      ⟨"" ++ body, 0o666⟩) file.name 0o644) file.name = some ⟨body, 0o644⟩
    rw [osChmod, fsGet_fsSet_self]
    show fsGet (fsSet _ file.name ⟨"" ++ body, 0o644⟩) file.name = some ⟨body, 0o644⟩
    rw [fsGet_fsSet_self]
    rfl

/-- Witness for C9's theorem at a concrete entry and transport. -/
theorem downloadFile_mode_not_executable_witness :
    ∃ fs', downloadFileRun ⟨"demo.so", "file", "https://x/demo.so"⟩
        (fun _ => some "binary-body") [] =
        (fs', Msg.operationComplete "demo.so" "download" none) ∧
      fsGet fs' "demo.so" = some ⟨"binary-body", 0o644⟩ ∧ Nat.land 0o644 0o111 = 0 :=
  downloadFile_mode_not_executable ⟨"demo.so", "file", "https://x/demo.so"⟩
    (fun _ => some "binary-body") [] "binary-body" rfl (by decide) rfl

/-- C6: For every loaded catalog with at least one repository and every
repository index, toggling that repository's collapse flag twice
(rebuilding the display projection after each toggle) yields a
display-line sequence equal in content and order to the sequence before
the first toggle. -/
theorem toggleCollapse_twice_display_id (repos : List Repository) (i : Nat)
    (hne : 0 < repos.length) (hi : i < repos.length) :
    buildDisplayLines (toggleCollapse (toggleCollapse repos i) i) =
      buildDisplayLines repos := by
  rw [toggleCollapse_toggleCollapse]

/-- Witness for C6 at a concrete two-repository catalog. -/
theorem toggleCollapse_twice_display_id_witness :
    buildDisplayLines
        (toggleCollapse
          (toggleCollapse
            [⟨"R1", "u1", [⟨"a", "file", "d"⟩], false⟩,
             ⟨"R2", "u2", [], true⟩] 1) 1) =
      buildDisplayLines
        [⟨"R1", "u1", [⟨"a", "file", "d"⟩], false⟩, ⟨"R2", "u2", [], true⟩] :=
  toggleCollapse_twice_display_id _ 1 (by decide) (by decide)

end GoTUI
